import Mathlib

/-!
# loopback-fuse: a passthrough FUSE driver over `/tmp/loop`

A shallow embedding of `src/main.cpp`.

* C strings and the `strcpy`/`strcat` pair used by `resolve_loopback_path`
  act on a memory image (`Bytes`): the list holds the bytes found from the
  destination pointer upwards.  A write past the end of the image makes the
  image longer, so an image longer than the array it started as records a
  write beyond that array.  The operations keep their `char buf[PATH_MAX]`
  arrays in a stack frame and have no defined result (`Outcome.undefined`)
  once a copy stores bytes past the end of its array.
* The host is a record of system calls (`Host`) with typed results, which
  refuses path names of `PATH_MAX` bytes or more (`ENAMETOOLONG`); the C
  calling convention (`-1` plus `errno`, `NULL` for `opendir`) is added by
  the wrappers in the `libc` namespace, which also log every call made.
* `posix` is a small concrete store (inode table, name table, descriptor
  table) with POSIX file semantics: access modes, file offsets, append mode.
-/

namespace Loopback

/-! ## Bytes, C strings and machine integers -/

/-- Memory contents, one natural number per byte. -/
abbrev Bytes := List Nat

/-- Value of `PATH_MAX` in `linux/limits.h`. -/
def PATH_MAX : Nat := 4096

/-- The string `"/tmp/loop"` (main.cpp line 15), without its terminator. -/
def loopback_path : Bytes := [47, 116, 109, 112, 47, 108, 111, 111, 112]

/-- The string stored at the start of a memory image: the bytes before the
first NUL (the end of the image counts as a terminator). -/
def cstr : Bytes → Bytes
  | [] => []
  | c :: cs => if c = 0 then [] else c :: cstr cs

/-- Libc `strcpy(dst, src)`: copies the bytes of `src` up to and including
the terminator over the start of `dst`; the rest of `dst` is untouched. -/
def strcpy : Bytes → Bytes → Bytes
  | dst, [] => 0 :: dst.tail
  | dst, c :: cs => if c = 0 then 0 :: dst.tail else c :: strcpy dst.tail cs

/-- Libc `strcat(dst, src)`: walks `dst` to its first NUL and copies `src`
there. -/
def strcat : Bytes → Bytes → Bytes
  | [], src => strcpy [] src
  | d :: ds, src => if d = 0 then strcpy (d :: ds) src else d :: strcat ds src

/-- Source `resolve_loopback_path(buf, path)`, lines 17-22.  The `printf` only
writes to the diagnostic stream and is left out. -/
def resolve_loopback_path (buf path : Bytes) : Bytes :=
  strcat (strcpy buf loopback_path) path

/-- An automatic array `char buf[n]`: `n` bytes of unspecified content. -/
def char_array (n : Nat) : Bytes := List.replicate n 204

/-- Number of bytes `resolve_loopback_path` stores at its destination: started
on memory that holds nothing, the image it leaves is exactly what it wrote. -/
def stored (path : Bytes) : Nat := (resolve_loopback_path [] path).length

/-- Source `resolve_loopback_path(frame + off, path)` where an array of `cap`
bytes sits at offset `off` of the stack frame `frame`: the frame afterwards, or
`none` when bytes are stored past the end of the array, which is undefined
behaviour.  The copy runs on the frame from the array on, so bytes stored past
the array land in whatever the frame holds next. -/
def resolve_in (frame : Bytes) (off cap : Nat) (path : Bytes) : Option Bytes :=
  if cap < stored path then none
  else some (frame.take off ++ resolve_loopback_path (frame.drop off) path)

/-- Conversion of an integer value to `uint64_t`. -/
def to_u64 (x : Int) : Nat := (x % 2 ^ 64).toNat

/-- Conversion of an integer value to `int` (32 bits, wrapping). -/
def to_int (x : Int) : Int :=
  if x % 2 ^ 32 < 2 ^ 31 then x % 2 ^ 32 else x % 2 ^ 32 - 2 ^ 32

/-! ## The host interface -/

/-- A host error number: positive and representable as `int`. -/
structure Errno where
  code : Nat
  pos : 0 < code
  lt : code < 2 ^ 31
  deriving DecidableEq

def ENOENT : Errno := ⟨2, by decide, by decide⟩
def EBADF : Errno := ⟨9, by decide, by decide⟩
def EEXIST : Errno := ⟨17, by decide, by decide⟩
def ENOTDIR : Errno := ⟨20, by decide, by decide⟩
def EISDIR : Errno := ⟨21, by decide, by decide⟩
def EINVAL : Errno := ⟨22, by decide, by decide⟩
def EMFILE : Errno := ⟨24, by decide, by decide⟩
def ENAMETOOLONG : Errno := ⟨36, by decide, by decide⟩
def ENOTEMPTY : Errno := ⟨39, by decide, by decide⟩

/-- Outcome of a system call: a value, or an error number. -/
inductive Res (α : Type) where
  | ok : α → Res α
  | err : Errno → Res α
  deriving DecidableEq

/-- A file descriptor as returned by the host: a non-negative `int`. -/
structure Fd where
  val : Nat
  lt : val < 2 ^ 31
  deriving DecidableEq

/-- The fields of `struct stat` that the store fills in. -/
structure Stat where
  st_mode : Nat
  st_size : Nat
  deriving DecidableEq

/-- A directory stream as the host hands it out: the names still to be
produced, and the error (if any) hit once they are exhausted. -/
structure DIR where
  entries : List Bytes
  fault : Option Errno
  deriving DecidableEq

/-- The system calls used by the driver, over a host state `σ`. -/
structure Host (σ : Type) where
  access : Bytes → Nat → σ → Res Unit × σ
  stat : Bytes → σ → Res Stat × σ
  creat : Bytes → Nat → σ → Res Fd × σ
  open_ : Bytes → Nat → σ → Res Fd × σ
  truncate : Bytes → Int → σ → Res Unit × σ
  link : Bytes → Bytes → σ → Res Unit × σ
  rename : Bytes → Bytes → σ → Res Unit × σ
  symlink : Bytes → Bytes → σ → Res Unit × σ
  rmdir : Bytes → σ → Res Unit × σ
  mknod : Bytes → Nat → Nat → σ → Res Unit × σ
  utime : Bytes → Option (Int × Int) → σ → Res Unit × σ
  lseek : Int → Int → Nat → σ → Res Nat × σ
  read : Int → Nat → σ → Res Bytes × σ
  write : Int → Bytes → σ → Res Nat × σ
  opendir : Bytes → σ → Res DIR × σ
  /-- A path name of `PATH_MAX` bytes or more (terminator not counted) is
  refused with `ENAMETOOLONG` by every call that takes one. -/
  name_too_long : ∀ (p : Bytes) (s : σ), PATH_MAX ≤ p.length →
    (∀ mode, (access p mode s).1 = .err ENAMETOOLONG)
    ∧ (stat p s).1 = .err ENAMETOOLONG
    ∧ (∀ mode, (creat p mode s).1 = .err ENAMETOOLONG)
    ∧ (∀ flags, (open_ p flags s).1 = .err ENAMETOOLONG)
    ∧ (∀ n, (truncate p n s).1 = .err ENAMETOOLONG)
    ∧ (∀ q, (link p q s).1 = .err ENAMETOOLONG ∧ (link q p s).1 = .err ENAMETOOLONG)
    ∧ (∀ q, (rename p q s).1 = .err ENAMETOOLONG ∧ (rename q p s).1 = .err ENAMETOOLONG)
    ∧ (∀ q, (symlink p q s).1 = .err ENAMETOOLONG ∧ (symlink q p s).1 = .err ENAMETOOLONG)
    ∧ (rmdir p s).1 = .err ENAMETOOLONG
    ∧ (∀ mode dev, (mknod p mode dev s).1 = .err ENAMETOOLONG)
    ∧ (∀ times, (utime p times s).1 = .err ENAMETOOLONG)
    ∧ (opendir p s).1 = .err ENAMETOOLONG

/-- One call made to the host, with the arguments it received. -/
inductive Call where
  | access (p : Bytes) (mode : Nat)
  | stat (p : Bytes)
  | creat (p : Bytes) (mode : Nat)
  | open_ (p : Bytes) (flags : Nat)
  | truncate (p : Bytes) (length : Int)
  | link (a b : Bytes)
  | rename (a b : Bytes)
  | symlink (a b : Bytes)
  | rmdir (p : Bytes)
  | mknod (p : Bytes) (mode dev : Nat)
  | utime (p : Bytes) (times : Option (Int × Int))
  | lseek (fd : Int) (offset : Int) (whence : Nat)
  | read (fd : Int) (size : Nat)
  | write (fd : Int) (data : Bytes)
  | opendir (p : Bytes)
  | readdir (dp : Nat)
  | closedir (dp : Nat)
  deriving DecidableEq

/-- What the driver runs against: the host state, the `errno` of the calling thread, the
directory streams held by libc (a `DIR *` is the slot number plus one, `0` is
`NULL`) and the log of calls made so far. -/
structure World (σ : Type) where
  host : σ
  errno : Int
  dirs : List (Option DIR)
  calls : List Call
  deriving DecidableEq

/-- Result of running code that may leave defined behaviour or run out of
loop budget. -/
inductive Outcome (α : Type) where
  | done : α → Outcome α
  | undefined : Outcome α
  | timeout : Outcome α
  deriving DecidableEq

/-- Source-level `struct fuse_file_info`: only the handle field is used. -/
structure fuse_file_info where
  fh : Nat
  deriving DecidableEq

def SEEK_SET : Nat := 0
def O_RDWR : Nat := 2
def O_APPEND : Nat := 1024

/-! ## The C calling convention over the host -/

namespace libc

variable {σ : Type}

/-- Record a call and the new host state. -/
def step (w : World σ) (c : Call) (s : σ) : World σ :=
  { w with host := s, calls := w.calls ++ [c] }

/-- Return convention of the calls that yield no value: `0`, or `-1` with
`errno` set. -/
def ret_unit (r : Res Unit × σ) (c : Call) (w : World σ) : Int × World σ :=
  match r.1 with
  | .ok _ => (0, step w c r.2)
  | .err e => (-1, { step w c r.2 with errno := e.code })

/-- Return convention of the calls that yield a descriptor. -/
def ret_fd (r : Res Fd × σ) (c : Call) (w : World σ) : Int × World σ :=
  match r.1 with
  | .ok fd => (fd.val, step w c r.2)
  | .err e => (-1, { step w c r.2 with errno := e.code })

def access (h : Host σ) (path : Bytes) (mode : Nat) (w : World σ) : Int × World σ :=
  ret_unit (h.access (cstr path) mode w.host) (.access (cstr path) mode) w

/-- Libc `stat(path, stbuf)`: fills `stbuf` on success only. -/
def stat (h : Host σ) (path : Bytes) (stbuf : Stat) (w : World σ) : Int × Stat × World σ :=
  match h.stat (cstr path) w.host with
  | (.ok st, s) => (0, st, step w (.stat (cstr path)) s)
  | (.err e, s) => (-1, stbuf, { step w (.stat (cstr path)) s with errno := e.code })

def creat (h : Host σ) (path : Bytes) (mode : Nat) (w : World σ) : Int × World σ :=
  ret_fd (h.creat (cstr path) mode w.host) (.creat (cstr path) mode) w

def open_ (h : Host σ) (path : Bytes) (flags : Nat) (w : World σ) : Int × World σ :=
  ret_fd (h.open_ (cstr path) flags w.host) (.open_ (cstr path) flags) w

def truncate (h : Host σ) (path : Bytes) (length : Int) (w : World σ) : Int × World σ :=
  ret_unit (h.truncate (cstr path) length w.host) (.truncate (cstr path) length) w

def link (h : Host σ) (a b : Bytes) (w : World σ) : Int × World σ :=
  ret_unit (h.link (cstr a) (cstr b) w.host) (.link (cstr a) (cstr b)) w

def rename (h : Host σ) (a b : Bytes) (w : World σ) : Int × World σ :=
  ret_unit (h.rename (cstr a) (cstr b) w.host) (.rename (cstr a) (cstr b)) w

def symlink (h : Host σ) (a b : Bytes) (w : World σ) : Int × World σ :=
  ret_unit (h.symlink (cstr a) (cstr b) w.host) (.symlink (cstr a) (cstr b)) w

def rmdir (h : Host σ) (path : Bytes) (w : World σ) : Int × World σ :=
  ret_unit (h.rmdir (cstr path) w.host) (.rmdir (cstr path)) w

def mknod (h : Host σ) (path : Bytes) (mode dev : Nat) (w : World σ) : Int × World σ :=
  ret_unit (h.mknod (cstr path) mode dev w.host) (.mknod (cstr path) mode dev) w

def utime (h : Host σ) (path : Bytes) (times : Option (Int × Int)) (w : World σ) :
    Int × World σ :=
  ret_unit (h.utime (cstr path) times w.host) (.utime (cstr path) times) w

/-- Libc `lseek(fd, offset, whence)`: the new offset, or `-1`. -/
def lseek (h : Host σ) (fd : Int) (offset : Int) (whence : Nat) (w : World σ) :
    Int × World σ :=
  match h.lseek fd offset whence w.host with
  | (.ok n, s) => (n, step w (.lseek fd offset whence) s)
  | (.err e, s) => (-1, { step w (.lseek fd offset whence) s with errno := e.code })

/-- Libc `read(fd, buffer, size)`: at most `size` bytes are stored at the
start of `buffer`; the count is returned, or `-1`. -/
def read (h : Host σ) (fd : Int) (buffer : Bytes) (size : Nat) (w : World σ) :
    Int × Bytes × World σ :=
  match h.read fd size w.host with
  | (.ok d, s) =>
    (((d.take size).length : Int), d.take size ++ buffer.drop (d.take size).length,
      step w (.read fd size) s)
  | (.err e, s) => (-1, buffer, { step w (.read fd size) s with errno := e.code })

/-- Libc `write(fd, buffer, size)`: offers the first `size` bytes of `buffer`;
the count written is returned, or `-1`. -/
def write (h : Host σ) (fd : Int) (buffer : Bytes) (size : Nat) (w : World σ) :
    Int × World σ :=
  match h.write fd (buffer.take size) w.host with
  | (.ok n, s) => (n, step w (.write fd (buffer.take size)) s)
  | (.err e, s) => (-1, { step w (.write fd (buffer.take size)) s with errno := e.code })

/-- Libc `opendir(path)`: a fresh stream, or `NULL` (`0`) with `errno` set. -/
def opendir (h : Host σ) (path : Bytes) (w : World σ) : Nat × World σ :=
  match h.opendir (cstr path) w.host with
  | (.ok d, s) =>
    (w.dirs.length + 1, { step w (.opendir (cstr path)) s with dirs := w.dirs ++ [some d] })
  | (.err e, s) => (0, { step w (.opendir (cstr path)) s with errno := e.code })

/-- Libc `readdir(dp)`: the next name, or `NULL` at the end of the stream and
on error (then with `errno` set).  A `dp` that is not a live stream is
undefined behaviour (`none`). -/
def readdir (dp : Nat) (w : World σ) : Option (Option Bytes × World σ) :=
  match dp with
  | 0 => none
  | k + 1 =>
    match w.dirs[k]? with
    | some (some d) =>
      match d.entries with
      | e :: rest =>
        some (some e, { w with dirs := w.dirs.set k (some { d with entries := rest }),
                               calls := w.calls ++ [.readdir dp] })
      | [] =>
        match d.fault with
        | none => some (none, { w with calls := w.calls ++ [.readdir dp] })
        | some e => some (none, { w with errno := e.code, calls := w.calls ++ [.readdir dp] })
    | _ => none

/-- Libc `closedir(dp)`: releases the stream.  A `dp` that is not a live
stream is undefined behaviour (`none`). -/
def closedir (dp : Nat) (w : World σ) : Option (Int × World σ) :=
  match dp with
  | 0 => none
  | k + 1 =>
    match w.dirs[k]? with
    | some (some _) =>
      some (0, { w with dirs := w.dirs.set k none, calls := w.calls ++ [.closedir dp] })
    | _ => none

end libc

/-! ## The driver (src/main.cpp) -/

section driver

variable {σ β : Type}

/-- The entry sink `fuse_fill_dir_t`: `filler(buf, name, stbuf, off)` returns a
status and the updated sink buffer. -/
abbrev fuse_fill_dir_t (β : Type) := β → Bytes → Option Stat → Int → Int × β

/-- Source lines 24-29. -/
def loopback_access (h : Host σ) (path : Bytes) (mode : Nat) (w : World σ) :
    Outcome (Int × World σ) :=
  match resolve_in (char_array PATH_MAX) 0 PATH_MAX path with
  | none => .undefined
  | some buf => .done (libc.access h buf mode w)

/-- Source lines 31-38. -/
def loopback_create (h : Host σ) (path : Bytes) (mode : Nat) (fi : fuse_file_info)
    (w : World σ) : Outcome (Int × fuse_file_info × World σ) :=
  match resolve_in (char_array PATH_MAX) 0 PATH_MAX path with
  | none => .undefined
  | some buf =>
    let r := libc.creat h buf mode w
    let fi := { fi with fh := to_u64 r.1 }
    .done (if to_int fi.fh ≠ -1 then 0 else - r.2.errno, fi, r.2)

/-- Source lines 49-54. -/
def loopback_getattr (h : Host σ) (path : Bytes) (stbuf : Stat) (w : World σ) :
    Outcome (Int × Stat × World σ) :=
  match resolve_in (char_array PATH_MAX) 0 PATH_MAX path with
  | none => .undefined
  | some buf =>
    let r := libc.stat h buf stbuf w
    .done (if r.1 = -1 then - r.2.2.errno else 0, r.2.1, r.2.2)

/-- Source lines 56-62.  The frame holds `char buf1[PATH_MAX], buf2[PATH_MAX]`
back to back, `buf2` at offset 0 and `buf1` at offset `PATH_MAX`. -/
def loopback_link (h : Host σ) (from_ to_ : Bytes) (w : World σ) : Outcome (Int × World σ) :=
  match resolve_in (char_array (PATH_MAX + PATH_MAX)) PATH_MAX PATH_MAX from_ with
  | none => .undefined
  | some frame1 =>
    match resolve_in frame1 0 PATH_MAX to_ with
    | none => .undefined
    | some frame2 => .done (libc.link h (frame2.drop PATH_MAX) frame2 w)

/-- Source lines 64-67.  The value of `lseek` is discarded; the count from
`read` is converted to the `int` return type. -/
def loopback_read (h : Host σ) (_path : Bytes) (buffer : Bytes) (size : Nat) (offset : Int)
    (fi : fuse_file_info) (w : World σ) : Int × Bytes × World σ :=
  let w1 := (libc.lseek h (to_int fi.fh) offset SEEK_SET w).2
  let r := libc.read h (to_int fi.fh) buffer size w1
  (to_int r.1, r.2.1, r.2.2)

/-- Source lines 69-72. -/
def loopback_write (h : Host σ) (_path : Bytes) (buffer : Bytes) (size : Nat) (offset : Int)
    (fi : fuse_file_info) (w : World σ) : Int × World σ :=
  let w1 := (libc.lseek h (to_int fi.fh) offset SEEK_SET w).2
  let r := libc.write h (to_int fi.fh) buffer size w1
  (to_int r.1, r.2)

/-- Source lines 81-86. -/
def loopback_mknod (h : Host σ) (path : Bytes) (mode dev : Nat) (w : World σ) :
    Outcome (Int × World σ) :=
  match resolve_in (char_array PATH_MAX) 0 PATH_MAX path with
  | none => .undefined
  | some buf => .done (libc.mknod h buf mode dev w)

/-- Source lines 88-95. -/
def loopback_open (h : Host σ) (path : Bytes) (fi : fuse_file_info) (w : World σ) :
    Outcome (Int × fuse_file_info × World σ) :=
  match resolve_in (char_array PATH_MAX) 0 PATH_MAX path with
  | none => .undefined
  | some buf =>
    let r := libc.open_ h buf (O_RDWR ||| O_APPEND) w
    let fi := { fi with fh := to_u64 r.1 }
    .done (if to_int fi.fh ≠ -1 then 0 else - r.2.errno, fi, r.2)

/-- Source lines 108-114, with the frame of `loopback_link`. -/
def loopback_rename (h : Host σ) (from_ to_ : Bytes) (w : World σ) :
    Outcome (Int × World σ) :=
  match resolve_in (char_array (PATH_MAX + PATH_MAX)) PATH_MAX PATH_MAX from_ with
  | none => .undefined
  | some frame1 =>
    match resolve_in frame1 0 PATH_MAX to_ with
    | none => .undefined
    | some frame2 => .done (libc.rename h (frame2.drop PATH_MAX) frame2 w)

/-- Source lines 116-121. -/
def loopback_rmdir (h : Host σ) (path : Bytes) (w : World σ) : Outcome (Int × World σ) :=
  match resolve_in (char_array PATH_MAX) 0 PATH_MAX path with
  | none => .undefined
  | some buf => .done (libc.rmdir h buf w)

/-- Source lines 130-136, with the frame of `loopback_link`. -/
def loopback_symlink (h : Host σ) (from_ to_ : Bytes) (w : World σ) :
    Outcome (Int × World σ) :=
  match resolve_in (char_array (PATH_MAX + PATH_MAX)) PATH_MAX PATH_MAX from_ with
  | none => .undefined
  | some frame1 =>
    match resolve_in frame1 0 PATH_MAX to_ with
    | none => .undefined
    | some frame2 => .done (libc.symlink h (frame2.drop PATH_MAX) frame2 w)

/-- Source lines 138-143. -/
def loopback_truncate (h : Host σ) (path : Bytes) (offset : Int) (w : World σ) :
    Outcome (Int × World σ) :=
  match resolve_in (char_array PATH_MAX) 0 PATH_MAX path with
  | none => .undefined
  | some buf =>
    let r := libc.truncate h buf offset w
    .done (if r.1 = 0 then 0 else - r.2.errno, r.2)

/-- Source lines 152-157. -/
def loopback_utime (h : Host σ) (path : Bytes) (times : Option (Int × Int)) (w : World σ) :
    Outcome (Int × World σ) :=
  match resolve_in (char_array PATH_MAX) 0 PATH_MAX path with
  | none => .undefined
  | some buf => .done (libc.utime h buf times w)

/-- The `while` loop of source lines 187-189, with a budget of iterations. -/
def readdir_loop (filler : fuse_fill_dir_t β) (dp : Nat) :
    Nat → β → World σ → Outcome (β × World σ)
  | 0, _, _ => .timeout
  | fuel + 1, buffer, w =>
    match libc.readdir dp w with
    | none => .undefined
    | some (none, w1) => .done (buffer, w1)
    | some (some d_name, w1) =>
      readdir_loop filler dp fuel (filler buffer d_name none 0).2 w1

/-- Source lines 181-193. -/
def loopback_readdir (h : Host σ) (fuel : Nat) (path : Bytes) (buffer : β)
    (filler : fuse_fill_dir_t β) (_offset : Int) (_fi : fuse_file_info) (w : World σ) :
    Outcome (Int × β × World σ) :=
  match resolve_in (char_array PATH_MAX) 0 PATH_MAX path with
  | none => .undefined
  | some buf =>
    let r := libc.opendir h buf w
    let dp := r.1
    match readdir_loop filler dp fuel buffer r.2 with
    | .timeout => .timeout
    | .undefined => .undefined
    | .done (buffer, w1) =>
      match libc.closedir dp w1 with
      | none => .undefined
      | some (_, w2) => .done (0, buffer, w2)

end driver

/-! ## A concrete store with POSIX file semantics

Names are matched byte for byte (no normalisation, symbolic links are not
followed); inodes carry the data, so that several names and descriptors may
share a file; a descriptor carries its access mode, its offset and the append
flag. -/

/-- What an inode holds. -/
inductive Node where
  | file (data : Bytes)
  | dir
  | symlink (target : Bytes)
  | special (mode dev : Nat)
  deriving DecidableEq

/-- An open file description. -/
structure OpenFile where
  ino : Nat
  pos : Nat
  rd : Bool
  wr : Bool
  append : Bool
  deriving DecidableEq

/-- State of the store: name table, inode table, descriptor table. -/
structure FS where
  names : List (Bytes × Nat)
  inodes : List Node
  fds : List (Option OpenFile)
  deriving DecidableEq

/-- A path name without its trailing slashes (a lone `/` stays). -/
def trim (p : Bytes) : Bytes :=
  match (p.reverse.dropWhile (fun c => c = 47)).reverse with
  | [] => if p = [] then [] else [47]
  | q => q

namespace FS

/-- Inode number bound to a name. -/
def lookup : List (Bytes × Nat) → Bytes → Option Nat
  | [], _ => none
  | (q, i) :: rest, p => if q = p then some i else lookup rest p

/-- The node a name leads to. -/
def node (s : FS) (p : Bytes) : Option Node :=
  match lookup s.names p with
  | some i => s.inodes[i]?
  | none => none

/-- Contents of the regular file a path name leads to. -/
def contents (s : FS) (p : Bytes) : Option Bytes :=
  match s.node (trim p) with
  | some (.file c) => some c
  | _ => none

/-- What is left of `q` once the leading `d` is removed. -/
def strip : Bytes → Bytes → Option Bytes
  | [], q => some q
  | _ :: _, [] => none
  | a :: d, b :: q => if a = b then strip d q else none

/-- The entry name of `q` inside directory `d`, when `q` lies directly in it. -/
def child (d q : Bytes) : Option Bytes :=
  match strip d q with
  | some (47 :: name) => if name ≠ [] ∧ 47 ∉ name then some name else none
  | _ => none

/-- Names of the entries lying directly in directory `d`. -/
def children (s : FS) (d : Bytes) : List Bytes :=
  s.names.filterMap (fun e => child d e.1)

/-- The directory part of a name: everything before its last slash. -/
def parent (p : Bytes) : Bytes :=
  ((p.reverse.dropWhile (fun c => c ≠ 47)).drop 1).reverse

/-- A new name can be bound: it is free and its directory exists. -/
def creatable (s : FS) (p : Bytes) : Res Unit :=
  match lookup s.names p with
  | some _ => .err EEXIST
  | none => if s.node (parent p) = some .dir then .ok () else .err ENOENT

/-- Bind a fresh inode to a name. -/
def bind (s : FS) (p : Bytes) (n : Node) : FS :=
  { s with names := s.names ++ [(p, s.inodes.length)], inodes := s.inodes ++ [n] }

/-- Install an open file description in the lowest free descriptor slot. -/
def alloc : List (Option OpenFile) → OpenFile → Nat × List (Option OpenFile)
  | [], f => (0, [some f])
  | none :: t, f => (0, some f :: t)
  | some g :: t, f => ((alloc t f).1 + 1, some g :: (alloc t f).2)

/-- Hand out a descriptor for an open file description. -/
def install (s : FS) (f : OpenFile) : Res Fd × FS :=
  if h : (alloc s.fds f).1 < 2 ^ 31 then
    (.ok ⟨(alloc s.fds f).1, h⟩, { s with fds := (alloc s.fds f).2 })
  else (.err EMFILE, s)

/-- The open file description behind a descriptor argument. -/
def description (s : FS) (fd : Int) : Option OpenFile :=
  if fd < 0 then none else
    match s.fds[fd.toNat]? with
    | some (some f) => some f
    | _ => none

/-- File data after storing `d` at offset `pos`: a gap is filled with zero
bytes; storing nothing changes nothing. -/
def splice (c : Bytes) (pos : Nat) (d : Bytes) : Bytes :=
  if d = [] then c
  else (c ++ List.replicate (pos - c.length) 0).take pos ++ d ++ c.drop (pos + d.length)

/-- File data cut or zero-extended to `n` bytes. -/
def resize (c : Bytes) (n : Nat) : Bytes :=
  (c ++ List.replicate (n - c.length) 0).take n

def access (p : Bytes) (_mode : Nat) (s : FS) : Res Unit × FS :=
  match s.node p with
  | some _ => (.ok (), s)
  | none => (.err ENOENT, s)

def stat (p : Bytes) (s : FS) : Res Stat × FS :=
  match s.node p with
  | some (.file c) => (.ok ⟨32768, c.length⟩, s)
  | some .dir => (.ok ⟨16384, 0⟩, s)
  | some (.symlink t) => (.ok ⟨40960, t.length⟩, s)
  | some (.special mode _) => (.ok ⟨mode, 0⟩, s)
  | none => (.err ENOENT, s)

/-- Host `creat(path, mode)`, which is `open` with
`O_WRONLY | O_CREAT | O_TRUNC`: the descriptor is open for writing only. -/
def creat (p : Bytes) (_mode : Nat) (s : FS) : Res Fd × FS :=
  match lookup s.names p with
  | some i =>
    match s.inodes[i]? with
    | some (.file _) =>
      install { s with inodes := s.inodes.set i (.file []) } ⟨i, 0, false, true, false⟩
    | some .dir => (.err EISDIR, s)
    | _ => (.err EINVAL, s)
  | none =>
    match creatable s p with
    | .ok _ => install (bind s p (.file [])) ⟨s.inodes.length, 0, false, true, false⟩
    | .err e => (.err e, s)

/-- Host `open(path, flags)` without `O_CREAT`: access mode from the two low
bits of `flags`, append mode from the `O_APPEND` bit. -/
def open_ (p : Bytes) (flags : Nat) (s : FS) : Res Fd × FS :=
  match lookup s.names p with
  | none => (.err ENOENT, s)
  | some i =>
    if flags % 4 = 3 then (.err EINVAL, s) else
    match s.inodes[i]? with
    | some (.file _) =>
      install s ⟨i, 0, flags % 4 ≠ 1, flags % 4 ≠ 0, flags / O_APPEND % 2 = 1⟩
    | some .dir =>
      if flags % 4 = 0 then install s ⟨i, 0, true, false, false⟩ else (.err EISDIR, s)
    | _ => (.err EINVAL, s)

def truncate (p : Bytes) (length : Int) (s : FS) : Res Unit × FS :=
  match lookup s.names p with
  | none => (.err ENOENT, s)
  | some i =>
    match s.inodes[i]? with
    | some (.file c) =>
      if length < 0 then (.err EINVAL, s)
      else (.ok (), { s with inodes := s.inodes.set i (.file (resize c length.toNat)) })
    | some .dir => (.err EISDIR, s)
    | _ => (.err EINVAL, s)

def link (a b : Bytes) (s : FS) : Res Unit × FS :=
  match lookup s.names a with
  | none => (.err ENOENT, s)
  | some i =>
    match creatable s b with
    | .ok _ => (.ok (), { s with names := s.names ++ [(b, i)] })
    | .err e => (.err e, s)

/-- Host `rename(a, b)` for names that are not directories: `b` is unbound
first, then `a` is rebound to it. -/
def rename (a b : Bytes) (s : FS) : Res Unit × FS :=
  match s.node a with
  | none => (.err ENOENT, s)
  | some .dir => (.err EINVAL, s)
  | some _ =>
    if s.node b = some .dir then (.err EISDIR, s)
    else if s.node (parent b) ≠ some .dir then (.err ENOENT, s)
    else (.ok (), { s with names :=
      ((s.names.filter (fun e => e.1 ≠ b)).map (fun e => if e.1 = a then (b, e.2) else e)) })

def symlink (target linkpath : Bytes) (s : FS) : Res Unit × FS :=
  match creatable s linkpath with
  | .ok _ => (.ok (), bind s linkpath (.symlink target))
  | .err e => (.err e, s)

def rmdir (p : Bytes) (s : FS) : Res Unit × FS :=
  match s.node p with
  | none => (.err ENOENT, s)
  | some .dir =>
    if children s p = [] then (.ok (), { s with names := s.names.filter (fun e => e.1 ≠ p) })
    else (.err ENOTEMPTY, s)
  | some _ => (.err ENOTDIR, s)

def mknod (p : Bytes) (mode dev : Nat) (s : FS) : Res Unit × FS :=
  match creatable s p with
  | .ok _ =>
    (.ok (), bind s p (if mode / 4096 % 16 = 8 ∨ mode / 4096 % 16 = 0 then .file []
                       else .special mode dev))
  | .err e => (.err e, s)

def utime (p : Bytes) (_times : Option (Int × Int)) (s : FS) : Res Unit × FS :=
  match s.node p with
  | some _ => (.ok (), s)
  | none => (.err ENOENT, s)

/-- Size of the file behind an inode number. -/
def size (s : FS) (i : Nat) : Nat :=
  match s.inodes[i]? with
  | some (.file c) => c.length
  | _ => 0

/-- Host `lseek(fd, offset, whence)`: fails with `EINVAL` when the resulting
offset would be negative or `whence` is unknown. -/
def lseek (fd : Int) (offset : Int) (whence : Nat) (s : FS) : Res Nat × FS :=
  match description s fd with
  | none => (.err EBADF, s)
  | some f =>
    if 2 < whence then (.err EINVAL, s) else
    let base : Int :=
      if whence = 0 then 0 else if whence = 1 then (f.pos : Int) else (size s f.ino : Int)
    if base + offset < 0 then (.err EINVAL, s)
    else
      let g : OpenFile := { f with pos := (base + offset).toNat }
      (.ok (base + offset).toNat, { s with fds := s.fds.set fd.toNat (some g) })

/-- Host `read(fd, size)`: `EBADF` unless the descriptor is open for
reading; the data from the offset on, at most `size` bytes. -/
def read (fd : Int) (n : Nat) (s : FS) : Res Bytes × FS :=
  match description s fd with
  | none => (.err EBADF, s)
  | some f =>
    if f.rd = false then (.err EBADF, s) else
    match s.inodes[f.ino]? with
    | some (.file c) =>
      let d := (c.drop f.pos).take n
      let g : OpenFile := { f with pos := f.pos + d.length }
      (.ok d, { s with fds := s.fds.set fd.toNat (some g) })
    | some .dir => (.err EISDIR, s)
    | _ => (.err EINVAL, s)

/-- Host `write(fd, data)`: `EBADF` unless the descriptor is open for
writing; in append mode the offset is first moved to the end of the file. -/
def write (fd : Int) (d : Bytes) (s : FS) : Res Nat × FS :=
  match description s fd with
  | none => (.err EBADF, s)
  | some f =>
    if f.wr = false then (.err EBADF, s) else
    match s.inodes[f.ino]? with
    | some (.file c) =>
      let pos := if f.append then c.length else f.pos
      let g : OpenFile := { f with pos := pos + d.length }
      (.ok d.length,
        { s with inodes := s.inodes.set f.ino (.file (splice c pos d)),
                 fds := s.fds.set fd.toNat (some g) })
    | _ => (.err EINVAL, s)

def opendir (p : Bytes) (s : FS) : Res DIR × FS :=
  match s.node p with
  | none => (.err ENOENT, s)
  | some .dir => (.ok ⟨[46] :: [46, 46] :: children s p, none⟩, s)
  | some _ => (.err ENOTDIR, s)

end FS

/-- Entry check of every call of the store that takes a path name. -/
def named {α : Type} (p : Bytes) (k : FS → Res α × FS) (s : FS) : Res α × FS :=
  if PATH_MAX ≤ p.length then (.err ENAMETOOLONG, s) else k s

/-- The concrete store as a host; over-long path names are refused and trailing
slashes of path names are ignored. -/
def posix : Host FS where
  access := fun p mode => named p (FS.access (trim p) mode)
  stat := fun p => named p (FS.stat (trim p))
  creat := fun p mode => named p (FS.creat (trim p) mode)
  open_ := fun p flags => named p (FS.open_ (trim p) flags)
  truncate := fun p n => named p (FS.truncate (trim p) n)
  link := fun a b => named a (named b (FS.link (trim a) (trim b)))
  rename := fun a b => named a (named b (FS.rename (trim a) (trim b)))
  symlink := fun a b => named a (named b (FS.symlink a (trim b)))
  rmdir := fun p => named p (FS.rmdir (trim p))
  mknod := fun p mode dev => named p (FS.mknod (trim p) mode dev)
  utime := fun p times => named p (FS.utime (trim p) times)
  lseek := FS.lseek
  read := FS.read
  write := FS.write
  opendir := fun p => named p (FS.opendir (trim p))
  name_too_long := by
    intro p s h
    simp [named, h]

/-- A store holding the directories `/`, `/tmp` and `/tmp/loop`, the last one
empty; no descriptor is open. -/
def fs0 : FS :=
  { names := [([47], 0), ([47, 116, 109, 112], 1), (loopback_path, 2)],
    inodes := [.dir, .dir, .dir],
    fds := [] }

/-- A world at start: nothing called yet, `errno` clear. -/
def boot (s : FS) : World FS :=
  { host := s, errno := 0, dirs := [], calls := [] }

/-! ## Return conventions, as the specification words them -/

/-- Reading of "returns 0 exactly when the host call succeeds, and otherwise
the negated host error code, which is negative": `r` is the outcome of the host
call, `v` the value returned, `errno` the error number left behind. -/
def NegErrno {α : Type} (r : Res α) (v errno : Int) : Prop :=
  (v = 0 ↔ ∃ a, r = .ok a) ∧ ∀ e, r = .err e → v = -(e.code : Int) ∧ v < 0 ∧ errno = e.code

/-- Reading of "returns the raw host result": `0` on success and `-1` on every
failure, which is the negated error number only when that number is 1. -/
def RawResult {α : Type} (r : Res α) (v errno : Int) : Prop :=
  (v = 0 ↔ ∃ a, r = .ok a)
    ∧ ∀ e, r = .err e → v = -1 ∧ errno = e.code ∧ (v = -errno ↔ e.code = 1)

/-- Value of `errno` once a stream with end condition `fault` has been drained:
untouched at a clean end of stream, the error number otherwise. -/
def errno_at_end (fault : Option Errno) (errno : Int) : Int :=
  match fault with
  | none => errno
  | some e => e.code

/-- An entry sink that logs the arguments of each call and answers with a
status chosen by `status`. -/
def recorder (status : List (Bytes × Option Stat × Int) → Bytes → Int) :
    fuse_fill_dir_t (List (Bytes × Option Stat × Int)) :=
  fun log name stbuf off => (status log name, log ++ [(name, stbuf, off)])

/-- The store `fs0` with the five-byte file `/tmp/loop/a.txt` holding `hello`
and the directory `/tmp/loop/d` holding the empty files `a`, `b`, `c`. -/
def fs1 : FS :=
  { names := [([47], 0), ([47, 116, 109, 112], 1), (loopback_path, 2),
              (loopback_path ++ [47, 97, 46, 116, 120, 116], 3),
              (loopback_path ++ [47, 100], 4),
              (loopback_path ++ [47, 100, 47, 97], 5),
              (loopback_path ++ [47, 100, 47, 98], 6),
              (loopback_path ++ [47, 100, 47, 99], 7)],
    inodes := [.dir, .dir, .dir, .file [104, 101, 108, 108, 111], .dir,
               .file [], .file [], .file []],
    fds := [] }

/-! ## Path resolution -/

theorem cstr_of_not_mem (p : Bytes) (h : 0 ∉ p) : cstr p = p := by
  induction p with
  | nil => rfl
  | cons c cs ih =>
    have hc : c ≠ 0 := fun e => h (by simp [e])
    have hcs : 0 ∉ cs := fun e => h (by simp [e])
    simp [cstr, hc, ih hcs]

theorem cstr_zero_not_mem (p : Bytes) : 0 ∉ cstr p := by
  induction p with
  | nil => simp [cstr]
  | cons c cs ih =>
    by_cases hc : c = 0
    · simp [cstr, hc]
    · simp only [cstr, hc, if_false, List.mem_cons, not_or]
      exact ⟨fun e => hc e.symm, ih⟩

theorem cstr_append_zero (a r : Bytes) (h : 0 ∉ a) : cstr (a ++ 0 :: r) = a := by
  induction a with
  | nil => simp [cstr]
  | cons c cs ih =>
    have hc : c ≠ 0 := fun e => h (by simp [e])
    have hcs : 0 ∉ cs := fun e => h (by simp [e])
    simp [cstr, hc, ih hcs]

theorem strcpy_eq (src dst : Bytes) :
    strcpy dst src = cstr src ++ 0 :: dst.drop ((cstr src).length + 1) := by
  induction src generalizing dst with
  | nil => cases dst <;> simp [strcpy, cstr]
  | cons c cs ih =>
    by_cases hc : c = 0
    · cases dst <;> simp [strcpy, cstr, hc]
    · cases dst <;> simp [strcpy, cstr, hc, ih]

theorem strcat_eq (a r src : Bytes) (h : 0 ∉ a) :
    strcat (a ++ 0 :: r) src = a ++ cstr src ++ 0 :: r.drop (cstr src).length := by
  induction a with
  | nil => simp [strcat, strcpy_eq]
  | cons c cs ih =>
    have hc : c ≠ 0 := fun e => h (by simp [e])
    have hcs : 0 ∉ cs := fun e => h (by simp [e])
    simp [strcat, hc, ih hcs]

theorem loopback_path_no_nul : 0 ∉ loopback_path := by decide

/-- The memory image left by `resolve_loopback_path`, for any source bytes. -/
theorem resolve_image (buf path : Bytes) :
    resolve_loopback_path buf path
      = loopback_path ++ cstr path
        ++ 0 :: buf.drop (loopback_path.length + (cstr path).length + 1) := by
  unfold resolve_loopback_path
  rw [strcpy_eq, cstr_of_not_mem _ loopback_path_no_nul,
    strcat_eq _ _ _ loopback_path_no_nul, List.drop_drop]
  congr 3
  omega

/-- The string every operation hands to the host. -/
theorem resolved (buf path : Bytes) :
    cstr (resolve_loopback_path buf path) = loopback_path ++ cstr path := by
  rw [resolve_image, cstr_append_zero]
  intro h
  rcases List.mem_append.mp h with h | h
  · exact loopback_path_no_nul h
  · exact cstr_zero_not_mem _ h

theorem resolve_length (buf path : Bytes) :
    (resolve_loopback_path buf path).length
      = max buf.length (loopback_path.length + (cstr path).length + 1) := by
  rw [resolve_image]
  simp only [List.length_append, List.length_cons, List.length_drop]
  omega

/-- C1: for every virtual path `p` (a C string, so without NUL byte) and every
destination `buf`, `resolve_loopback_path(buf, p)` leaves at `buf` the bytes of
`"/tmp/loop"`, then the bytes of `p` unchanged, then the terminator; the
string read back from `buf` is `"/tmp/loop" ++ p` and its length is
`len(root) + len(p)`. -/
theorem resolve_loopback_path_concat (buf p : Bytes) (hp : 0 ∉ p) :
    resolve_loopback_path buf p
        = loopback_path ++ p ++ 0 :: buf.drop (loopback_path.length + p.length + 1)
      ∧ cstr (resolve_loopback_path buf p) = loopback_path ++ p
      ∧ (cstr (resolve_loopback_path buf p)).length = loopback_path.length + p.length := by
  have h1 := resolve_image buf p
  have h2 := resolved buf p
  rw [cstr_of_not_mem p hp] at h1 h2
  exact ⟨h1, h2, by rw [h2, List.length_append]⟩

/-- Instance of C1 at the path `/a/../..//b`, which keeps its `..` and its
empty segment. -/
theorem resolve_loopback_path_concat_witness :
    0 ∉ [47, 97, 47, 46, 46, 47, 46, 46, 47, 47, 98]
      ∧ cstr (resolve_loopback_path (char_array 32) [47, 97, 47, 46, 46, 47, 46, 46, 47, 47, 98])
          = [47, 116, 109, 112, 47, 108, 111, 111, 112,
             47, 97, 47, 46, 46, 47, 46, 46, 47, 47, 98] :=
  ⟨by decide, (resolve_loopback_path_concat (char_array 32)
      [47, 97, 47, 46, 46, 47, 46, 46, 47, 47, 98] (by decide)).2.1⟩

/-- C9: `resolve_loopback_path` checks no length.  Into an empty image it
writes `len(root) + len(p) + 1 = len(p) + 10` bytes; into a `PATH_MAX`-byte
array the image stays within the array exactly when `len(p) <= 4086`; and a
path of `PATH_MAX - 1` bytes makes it write past the array. -/
theorem resolve_loopback_path_overflow (buf p : Bytes) (hbuf : buf.length = PATH_MAX)
    (hp : 0 ∉ p) :
    (resolve_loopback_path [] p).length = loopback_path.length + p.length + 1
      ∧ loopback_path.length + p.length + 1 = p.length + 10
      ∧ ((resolve_loopback_path buf p).length ≤ PATH_MAX ↔ p.length ≤ 4086)
      ∧ ∃ q : Bytes, 0 ∉ q ∧ q.length ≤ PATH_MAX - 1
          ∧ PATH_MAX < (resolve_loopback_path (char_array PATH_MAX) q).length := by
  have hl : loopback_path.length = 9 := rfl
  refine ⟨?_, ?_, ?_, List.replicate (PATH_MAX - 1) 47, ?_, ?_, ?_⟩
  · rw [resolve_length, cstr_of_not_mem p hp]; simp
  · rw [hl]; omega
  · rw [resolve_length, cstr_of_not_mem p hp, hbuf, hl]
    simp only [PATH_MAX]
    omega
  · simp [List.mem_replicate]
  · simp
  · rw [resolve_length, cstr_of_not_mem _ (by simp [List.mem_replicate]), hl]
    simp only [char_array, List.length_replicate, PATH_MAX]
    omega

/-- Instance of C9 at the buffer of `loopback_access` and the path `/a`. -/
theorem resolve_loopback_path_overflow_witness :
    (char_array PATH_MAX).length = PATH_MAX ∧ 0 ∉ [47, 97]
      ∧ ((resolve_loopback_path (char_array PATH_MAX) [47, 97]).length ≤ PATH_MAX
          ↔ [47, 97].length ≤ 4086) :=
  ⟨by simp [char_array], by decide,
    (resolve_loopback_path_overflow (char_array PATH_MAX) [47, 97]
      (by simp [char_array]) (by decide)).2.2.1⟩

/-! ## The arrays of the operations -/

theorem stored_eq (path : Bytes) :
    stored path = loopback_path.length + (cstr path).length + 1 := by
  unfold stored
  rw [resolve_length]
  simp

/-- A path that fits: the copy stays inside the array and the frame is the old
one with the copy laid over it from the array on. -/
theorem resolve_in_fits (frame : Bytes) (off : Nat) (path : Bytes) (hp : 0 ∉ path)
    (hlen : path.length ≤ 4086) :
    resolve_in frame off PATH_MAX path
      = some (frame.take off ++ resolve_loopback_path (frame.drop off) path) := by
  have hl : loopback_path.length = 9 := rfl
  have : ¬ PATH_MAX < stored path := by
    rw [stored_eq, cstr_of_not_mem path hp, hl]
    simp only [PATH_MAX]
    omega
  simp [resolve_in, this]

/-- A path that does not fit: bytes are stored past the end of the array. -/
theorem resolve_in_overrun (frame : Bytes) (off : Nat) (path : Bytes) (hp : 0 ∉ path)
    (hlen : 4086 < path.length) :
    resolve_in frame off PATH_MAX path = none := by
  have hl : loopback_path.length = 9 := rfl
  have : PATH_MAX < stored path := by
    rw [stored_eq, cstr_of_not_mem path hp, hl]
    simp only [PATH_MAX]
    omega
  simp [resolve_in, this]

theorem resolve_in_some_fits (frame buf : Bytes) (off : Nat) (path : Bytes) (hp : 0 ∉ path)
    (h : resolve_in frame off PATH_MAX path = some buf) : path.length ≤ 4086 := by
  by_contra hlen
  rw [resolve_in_overrun frame off path hp (by omega)] at h
  simp at h

/-- The single array of an operation, for a path that fits. -/
theorem resolve_in_array (path : Bytes) (hp : 0 ∉ path) (hlen : path.length ≤ 4086) :
    resolve_in (char_array PATH_MAX) 0 PATH_MAX path
      = some (resolve_loopback_path (char_array PATH_MAX) path) := by
  rw [resolve_in_fits _ _ _ hp hlen]
  simp

theorem slashes_no_nul (n : Nat) : 0 ∉ List.replicate n 47 := by
  simp [List.mem_replicate]

/-- The two arrays of a two-path operation, for paths that fit: after both
copies `buf2` (offset 0) reads `root ++ to` and `buf1` (offset `PATH_MAX`) still
reads `root ++ from`. -/
theorem resolve_in_pair (from_ to_ : Bytes) (hf : 0 ∉ from_) (ht : 0 ∉ to_)
    (hflen : from_.length ≤ 4086) (htlen : to_.length ≤ 4086) :
    ∃ frame1 frame2,
      resolve_in (char_array (PATH_MAX + PATH_MAX)) PATH_MAX PATH_MAX from_ = some frame1
        ∧ resolve_in frame1 0 PATH_MAX to_ = some frame2
        ∧ cstr (frame1.drop PATH_MAX) = loopback_path ++ from_
        ∧ cstr frame2 = loopback_path ++ to_
        ∧ cstr (frame2.drop PATH_MAX) = loopback_path ++ from_ := by
  have hl : loopback_path.length = 9 := rfl
  have htake : ((char_array (PATH_MAX + PATH_MAX)).take PATH_MAX).length = PATH_MAX := by
    simp [char_array]
  have h1 : ∀ (x : Bytes),
      ((char_array (PATH_MAX + PATH_MAX)).take PATH_MAX ++ x).drop PATH_MAX = x :=
    fun x => List.drop_left' htake
  refine ⟨_, _, resolve_in_fits _ _ _ hf hflen, resolve_in_fits _ _ _ ht htlen, ?_, ?_, ?_⟩
  · rw [h1, resolved, cstr_of_not_mem _ hf]
  · simp only [List.take_zero, List.nil_append, List.drop_zero]
    rw [resolved, cstr_of_not_mem _ ht]
  · simp only [List.take_zero, List.nil_append, List.drop_zero]
    rw [resolve_image, cstr_of_not_mem _ ht]
    have hk : (loopback_path ++ to_ ++ [0]).length ≤ PATH_MAX := by
      simp only [List.length_append, List.length_singleton, hl, PATH_MAX]
      omega
    have hsplit : ∀ (y : Bytes),
        loopback_path ++ to_ ++ 0 :: y = (loopback_path ++ to_ ++ [0]) ++ y := by
      intro y; simp
    rw [hsplit, List.drop_append_eq_append_drop, List.drop_eq_nil_of_le hk, List.nil_append,
      List.drop_drop]
    have hsum : loopback_path.length + to_.length + 1
        + (PATH_MAX - (loopback_path ++ to_ ++ [0]).length) = PATH_MAX := by
      simp only [List.length_append, List.length_singleton, hl, PATH_MAX]
      omega
    rw [hsum, h1, resolved, cstr_of_not_mem _ hf]

/-! ## Error conventions -/

theorem to_u64_fd (fd : Fd) : to_u64 (fd.val : Int) = fd.val := by
  have := fd.lt
  unfold to_u64
  omega

theorem to_int_fd (fd : Fd) : to_int ((fd.val : Nat) : Int) = fd.val := by
  have := fd.lt
  unfold to_int
  split <;> omega

theorem to_int_u64_neg_one : to_int ((to_u64 (-1) : Nat) : Int) = -1 := by decide

theorem negErrno_fd {σ : Type} (r : Res Fd × σ) (c : Call) (w : World σ) :
    NegErrno r.1
      (if to_int ((to_u64 (libc.ret_fd r c w).1 : Nat) : Int) ≠ -1 then 0
        else - (libc.ret_fd r c w).2.errno)
      (libc.ret_fd r c w).2.errno
    ∧ ∀ fd, r.1 = .ok fd → to_u64 (libc.ret_fd r c w).1 = fd.val := by
  obtain ⟨r, s⟩ := r
  cases r with
  | ok fd =>
    have h1 : to_int ((fd.val : Nat) : Int) ≠ -1 := by rw [to_int_fd]; omega
    simp [NegErrno, libc.ret_fd, to_u64_fd, h1]
  | err e =>
    have := e.pos
    simp only [NegErrno, libc.ret_fd, to_int_u64_neg_one]
    simp
    omega

theorem negErrno_unit {σ : Type} (r : Res Unit × σ) (c : Call) (w : World σ) :
    NegErrno r.1
      (if (libc.ret_unit r c w).1 = 0 then 0 else - (libc.ret_unit r c w).2.errno)
      (libc.ret_unit r c w).2.errno := by
  obtain ⟨r, s⟩ := r
  cases r with
  | ok a => simp [NegErrno, libc.ret_unit]
  | err e =>
    have := e.pos
    simp [NegErrno, libc.ret_unit]
    omega

theorem rawResult_unit {σ : Type} (r : Res Unit × σ) (c : Call) (w : World σ) :
    RawResult r.1 (libc.ret_unit r c w).1 (libc.ret_unit r c w).2.errno := by
  obtain ⟨r, s⟩ := r
  cases r with
  | ok a => simp [RawResult, libc.ret_unit]
  | err e =>
    simp [RawResult, libc.ret_unit]
    omega

theorem loopback_create_result {σ : Type} (h : Host σ) (path : Bytes) (mode : Nat)
    (fi : fuse_file_info) (w : World σ) (hp : 0 ∉ path) (hlen : path.length ≤ 4086) :
    ∃ r, loopback_create h path mode fi w = .done r
      ∧ NegErrno (h.creat (loopback_path ++ path) mode w.host).1 r.1 r.2.2.errno
      ∧ (∀ fd, (h.creat (loopback_path ++ path) mode w.host).1 = .ok fd → r.2.1.fh = fd.val)
      ∧ r.2.2.host = (h.creat (loopback_path ++ path) mode w.host).2 := by
  simp only [loopback_create, resolve_in_array path hp hlen]
  refine ⟨_, rfl, ?_⟩
  simp only [libc.creat, resolved, cstr_of_not_mem path hp]
  refine ⟨(negErrno_fd _ _ w).1, (negErrno_fd _ _ w).2, ?_⟩
  simp only [libc.ret_fd]
  split <;> rfl

theorem loopback_open_result {σ : Type} (h : Host σ) (path : Bytes)
    (fi : fuse_file_info) (w : World σ) (hp : 0 ∉ path) (hlen : path.length ≤ 4086) :
    ∃ r, loopback_open h path fi w = .done r
      ∧ NegErrno (h.open_ (loopback_path ++ path) (O_RDWR ||| O_APPEND) w.host).1
          r.1 r.2.2.errno
      ∧ (∀ fd, (h.open_ (loopback_path ++ path) (O_RDWR ||| O_APPEND) w.host).1 = .ok fd →
          r.2.1.fh = fd.val)
      ∧ r.2.2.host = (h.open_ (loopback_path ++ path) (O_RDWR ||| O_APPEND) w.host).2 := by
  simp only [loopback_open, resolve_in_array path hp hlen]
  refine ⟨_, rfl, ?_⟩
  simp only [libc.open_, resolved, cstr_of_not_mem path hp]
  refine ⟨(negErrno_fd _ _ w).1, (negErrno_fd _ _ w).2, ?_⟩
  simp only [libc.ret_fd]
  split <;> rfl

/-- A run of `loopback_create` or `loopback_open` that returns had a path that
fits the array. -/
theorem done_fits {σ : Type} (h : Host σ) (path : Bytes) (mode : Nat) (fi : fuse_file_info)
    (w : World σ) (hp : 0 ∉ path) :
    (∀ r, loopback_create h path mode fi w = .done r → path.length ≤ 4086)
      ∧ (∀ r, loopback_open h path fi w = .done r → path.length ≤ 4086) := by
  constructor
  · intro r hr
    by_contra hlen
    simp [loopback_create, resolve_in_overrun _ _ _ hp (by omega : 4086 < path.length)] at hr
  · intro r hr
    by_contra hlen
    simp [loopback_open, resolve_in_overrun _ _ _ hp (by omega : 4086 < path.length)] at hr

/-- For paths that fit their array (at most 4086 bytes, no NUL), on every host:
`getattr`, `create`, `open` and `truncate` return, with 0 exactly when the host
call on the resolved path succeeds and the negated error number otherwise, and
`create` and `open` leave the host descriptor in `fi->fh`. -/
theorem negated_errno_convention {σ : Type} (h : Host σ) (path : Bytes) (mode : Nat)
    (offset : Int) (stbuf : Stat) (fi : fuse_file_info) (w : World σ) (hp : 0 ∉ path)
    (hlen : path.length ≤ 4086) :
    (∃ r, loopback_getattr h path stbuf w = .done r
        ∧ NegErrno (h.stat (loopback_path ++ path) w.host).1 r.1 r.2.2.errno)
    ∧ (∃ r, loopback_create h path mode fi w = .done r
        ∧ NegErrno (h.creat (loopback_path ++ path) mode w.host).1 r.1 r.2.2.errno
        ∧ (∀ fd, (h.creat (loopback_path ++ path) mode w.host).1 = .ok fd →
            r.2.1.fh = fd.val))
    ∧ (∃ r, loopback_open h path fi w = .done r
        ∧ NegErrno (h.open_ (loopback_path ++ path) (O_RDWR ||| O_APPEND) w.host).1
            r.1 r.2.2.errno
        ∧ (∀ fd, (h.open_ (loopback_path ++ path) (O_RDWR ||| O_APPEND) w.host).1 = .ok fd →
            r.2.1.fh = fd.val))
    ∧ (∃ r, loopback_truncate h path offset w = .done r
        ∧ NegErrno (h.truncate (loopback_path ++ path) offset w.host).1 r.1 r.2.errno) := by
  refine ⟨?_, ?_, ?_, ?_⟩
  · simp only [loopback_getattr, resolve_in_array path hp hlen]
    refine ⟨_, rfl, ?_⟩
    simp only [libc.stat, resolved, cstr_of_not_mem path hp]
    rcases h.stat (loopback_path ++ path) w.host with ⟨r, s⟩
    cases r with
    | ok st => simp [NegErrno]
    | err e =>
      have := e.pos
      simp [NegErrno]
      omega
  · obtain ⟨r, h1, h2, h3, _⟩ := loopback_create_result h path mode fi w hp hlen
    exact ⟨r, h1, h2, h3⟩
  · obtain ⟨r, h1, h2, h3, _⟩ := loopback_open_result h path fi w hp hlen
    exact ⟨r, h1, h2, h3⟩
  · simp only [loopback_truncate, resolve_in_array path hp hlen]
    refine ⟨_, rfl, ?_⟩
    simp only [libc.truncate, resolved, cstr_of_not_mem path hp]
    exact negErrno_unit _ _ w

/-- C3, evaluated at the path of 4087 slashes, which a caller may pass (it is
shorter than `PATH_MAX`) and holds no NUL: resolving it stores `PATH_MAX + 1`
bytes in the `PATH_MAX`-byte array, so on every host and in every state
`getattr`, `create`, `open` and `truncate` run into undefined behaviour and
return neither 0 nor a negated error number. -/
theorem negated_errno_overrun {σ : Type} (h : Host σ) (mode : Nat) (offset : Int)
    (stbuf : Stat) (fi : fuse_file_info) (w : World σ) :
    (List.replicate 4087 47).length ≤ PATH_MAX - 1
      ∧ 0 ∉ List.replicate 4087 47
      ∧ stored (List.replicate 4087 47) = PATH_MAX + 1
      ∧ loopback_getattr h (List.replicate 4087 47) stbuf w = .undefined
      ∧ loopback_create h (List.replicate 4087 47) mode fi w = .undefined
      ∧ loopback_open h (List.replicate 4087 47) fi w = .undefined
      ∧ loopback_truncate h (List.replicate 4087 47) offset w = .undefined := by
  have hlen : 4086 < (List.replicate 4087 47).length := by
    rw [List.length_replicate]; omega
  have hov := fun (frame : Bytes) (off : Nat) =>
    resolve_in_overrun frame off (List.replicate 4087 47) (slashes_no_nul _) hlen
  refine ⟨?_, slashes_no_nul _, ?_, ?_, ?_, ?_, ?_⟩
  · rw [List.length_replicate]; decide
  · rw [stored_eq, cstr_of_not_mem _ (slashes_no_nul _), List.length_replicate]; rfl
  · simp only [loopback_getattr, hov]
  · simp only [loopback_create, hov]
  · simp only [loopback_open, hov]
  · simp only [loopback_truncate, hov]

/-- For paths that fit their arrays (at most 4086 bytes, no NUL), on every
host: `link`, `rename`, `rmdir`, `symlink`, `mknod` and `utime` return the raw
result of the host call on the resolved path(s), 0 or `-1`. -/
theorem raw_result_convention {σ : Type} (h : Host σ) (path from_ to_ : Bytes) (mode dev : Nat)
    (times : Option (Int × Int)) (w : World σ)
    (hp : 0 ∉ path) (hf : 0 ∉ from_) (ht : 0 ∉ to_)
    (hplen : path.length ≤ 4086) (hflen : from_.length ≤ 4086) (htlen : to_.length ≤ 4086) :
    (∃ r, loopback_link h from_ to_ w = .done r
        ∧ RawResult (h.link (loopback_path ++ from_) (loopback_path ++ to_) w.host).1
            r.1 r.2.errno)
    ∧ (∃ r, loopback_rename h from_ to_ w = .done r
        ∧ RawResult (h.rename (loopback_path ++ from_) (loopback_path ++ to_) w.host).1
            r.1 r.2.errno)
    ∧ (∃ r, loopback_rmdir h path w = .done r
        ∧ RawResult (h.rmdir (loopback_path ++ path) w.host).1 r.1 r.2.errno)
    ∧ (∃ r, loopback_symlink h from_ to_ w = .done r
        ∧ RawResult (h.symlink (loopback_path ++ from_) (loopback_path ++ to_) w.host).1
            r.1 r.2.errno)
    ∧ (∃ r, loopback_mknod h path mode dev w = .done r
        ∧ RawResult (h.mknod (loopback_path ++ path) mode dev w.host).1 r.1 r.2.errno)
    ∧ (∃ r, loopback_utime h path times w = .done r
        ∧ RawResult (h.utime (loopback_path ++ path) times w.host).1 r.1 r.2.errno) := by
  obtain ⟨frame1, frame2, h1, h2, _, h4, h5⟩ := resolve_in_pair from_ to_ hf ht hflen htlen
  refine ⟨?_, ?_, ?_, ?_, ?_, ?_⟩
  · simp only [loopback_link, h1, h2]
    refine ⟨_, rfl, ?_⟩
    simp only [libc.link, h4, h5]
    exact rawResult_unit _ _ w
  · simp only [loopback_rename, h1, h2]
    refine ⟨_, rfl, ?_⟩
    simp only [libc.rename, h4, h5]
    exact rawResult_unit _ _ w
  · simp only [loopback_rmdir, resolve_in_array path hp hplen]
    refine ⟨_, rfl, ?_⟩
    simp only [libc.rmdir, resolved, cstr_of_not_mem _ hp]
    exact rawResult_unit _ _ w
  · simp only [loopback_symlink, h1, h2]
    refine ⟨_, rfl, ?_⟩
    simp only [libc.symlink, h4, h5]
    exact rawResult_unit _ _ w
  · simp only [loopback_mknod, resolve_in_array path hp hplen]
    refine ⟨_, rfl, ?_⟩
    simp only [libc.mknod, resolved, cstr_of_not_mem _ hp]
    exact rawResult_unit _ _ w
  · simp only [loopback_utime, resolve_in_array path hp hplen]
    refine ⟨_, rfl, ?_⟩
    simp only [libc.utime, resolved, cstr_of_not_mem _ hp]
    exact rawResult_unit _ _ w

/-- C7, evaluated at the path of 4087 slashes, which a caller may pass (it is
shorter than `PATH_MAX`) and holds no NUL: resolving it stores `PATH_MAX + 1`
bytes in a `PATH_MAX`-byte array, so on every host and in every state `rmdir`,
`mknod` and `utime` on it, and `link`, `rename` and `symlink` with it as first
path, run into undefined behaviour and return neither 0 nor `-1`. -/
theorem raw_result_overrun {σ : Type} (h : Host σ) (to_ : Bytes) (mode dev : Nat)
    (times : Option (Int × Int)) (w : World σ) :
    (List.replicate 4087 47).length ≤ PATH_MAX - 1
      ∧ 0 ∉ List.replicate 4087 47
      ∧ stored (List.replicate 4087 47) = PATH_MAX + 1
      ∧ loopback_link h (List.replicate 4087 47) to_ w = .undefined
      ∧ loopback_rename h (List.replicate 4087 47) to_ w = .undefined
      ∧ loopback_rmdir h (List.replicate 4087 47) w = .undefined
      ∧ loopback_symlink h (List.replicate 4087 47) to_ w = .undefined
      ∧ loopback_mknod h (List.replicate 4087 47) mode dev w = .undefined
      ∧ loopback_utime h (List.replicate 4087 47) times w = .undefined := by
  have hlen : 4086 < (List.replicate 4087 47).length := by
    rw [List.length_replicate]; omega
  have hov := fun (frame : Bytes) (off : Nat) =>
    resolve_in_overrun frame off (List.replicate 4087 47) (slashes_no_nul _) hlen
  refine ⟨?_, slashes_no_nul _, ?_, ?_, ?_, ?_, ?_, ?_, ?_⟩
  · rw [List.length_replicate]; decide
  · rw [stored_eq, cstr_of_not_mem _ (slashes_no_nul _), List.length_replicate]; rfl
  · simp only [loopback_link, hov]
  · simp only [loopback_rename, hov]
  · simp only [loopback_rmdir, hov]
  · simp only [loopback_symlink, hov]
  · simp only [loopback_mknod, hov]
  · simp only [loopback_utime, hov]

/-! ## Two-path operations -/

/-- For paths that fit their arrays (at most 4086 bytes, no NUL), on every
host: `rename`, `link` and `symlink` make exactly one host call, with the
arguments `(root ++ from, root ++ to)`; the first resolved path is read from
the frame after the second copy has been made. -/
theorem two_paths_resolved {σ : Type} (h : Host σ) (from_ to_ : Bytes) (w : World σ)
    (hf : 0 ∉ from_) (ht : 0 ∉ to_)
    (hflen : from_.length ≤ 4086) (htlen : to_.length ≤ 4086) :
    (loopback_rename h from_ to_ w
        = .done (libc.ret_unit (h.rename (loopback_path ++ from_) (loopback_path ++ to_) w.host)
            (.rename (loopback_path ++ from_) (loopback_path ++ to_)) w)
      ∧ (libc.ret_unit (h.rename (loopback_path ++ from_) (loopback_path ++ to_) w.host)
            (.rename (loopback_path ++ from_) (loopback_path ++ to_)) w).2.calls
          = w.calls ++ [.rename (loopback_path ++ from_) (loopback_path ++ to_)])
    ∧ (loopback_link h from_ to_ w
        = .done (libc.ret_unit (h.link (loopback_path ++ from_) (loopback_path ++ to_) w.host)
            (.link (loopback_path ++ from_) (loopback_path ++ to_)) w)
      ∧ (libc.ret_unit (h.link (loopback_path ++ from_) (loopback_path ++ to_) w.host)
            (.link (loopback_path ++ from_) (loopback_path ++ to_)) w).2.calls
          = w.calls ++ [.link (loopback_path ++ from_) (loopback_path ++ to_)])
    ∧ (loopback_symlink h from_ to_ w
        = .done (libc.ret_unit (h.symlink (loopback_path ++ from_) (loopback_path ++ to_) w.host)
            (.symlink (loopback_path ++ from_) (loopback_path ++ to_)) w)
      ∧ (libc.ret_unit (h.symlink (loopback_path ++ from_) (loopback_path ++ to_) w.host)
            (.symlink (loopback_path ++ from_) (loopback_path ++ to_)) w).2.calls
          = w.calls ++ [.symlink (loopback_path ++ from_) (loopback_path ++ to_)]) := by
  have hcalls : ∀ (r : Res Unit × σ) (c : Call),
      (libc.ret_unit r c w).2.calls = w.calls ++ [c] := by
    intro r c
    obtain ⟨r, s⟩ := r
    cases r <;> rfl
  obtain ⟨frame1, frame2, h1, h2, _, h4, h5⟩ := resolve_in_pair from_ to_ hf ht hflen htlen
  refine ⟨⟨?_, hcalls _ _⟩, ⟨?_, hcalls _ _⟩, ⟨?_, hcalls _ _⟩⟩
  · simp only [loopback_rename, h1, h2, libc.rename, h4, h5]
  · simp only [loopback_link, h1, h2, libc.link, h4, h5]
  · simp only [loopback_symlink, h1, h2, libc.symlink, h4, h5]

/-- C8, evaluated at `from = "/a"` and `to` = 4090 slashes, which a caller may
pass (shorter than `PATH_MAX`, no NUL).  The first copy fits and `buf1` reads
`/tmp/loop/a`; the second copy stores 4100 bytes from the start of `buf2`, four
of them past its end, which are the first bytes of `buf1` in the frame: `buf1`
then reads `///`, not `root ++ from`.  That store is undefined behaviour, so on
every host `rename`, `link` and `symlink` have no defined result and no host
call with `(root ++ from, root ++ to)` is guaranteed. -/
theorem two_paths_overrun {σ : Type} (h : Host σ) (w : World σ) :
    (List.replicate 4090 47).length ≤ PATH_MAX - 1
      ∧ 0 ∉ List.replicate 4090 47
      ∧ stored (List.replicate 4090 47) = PATH_MAX + 4
      ∧ cstr (((char_array (PATH_MAX + PATH_MAX)).take PATH_MAX
            ++ resolve_loopback_path ((char_array (PATH_MAX + PATH_MAX)).drop PATH_MAX)
                [47, 97]).drop PATH_MAX)
          = loopback_path ++ [47, 97]
      ∧ cstr ((resolve_loopback_path
            ((char_array (PATH_MAX + PATH_MAX)).take PATH_MAX
              ++ resolve_loopback_path ((char_array (PATH_MAX + PATH_MAX)).drop PATH_MAX)
                  [47, 97])
            (List.replicate 4090 47)).drop PATH_MAX)
          = [47, 47, 47]
      ∧ loopback_rename h [47, 97] (List.replicate 4090 47) w = .undefined
      ∧ loopback_link h [47, 97] (List.replicate 4090 47) w = .undefined
      ∧ loopback_symlink h [47, 97] (List.replicate 4090 47) w = .undefined := by
  have hlen : 4086 < (List.replicate 4090 47).length := by
    rw [List.length_replicate]; omega
  have hov := fun (frame : Bytes) (off : Nat) =>
    resolve_in_overrun frame off (List.replicate 4090 47) (slashes_no_nul _) hlen
  have hfit := fun (frame : Bytes) (off : Nat) =>
    resolve_in_fits frame off [47, 97] (by decide) (by decide)
  have htake : ((char_array (PATH_MAX + PATH_MAX)).take PATH_MAX).length = PATH_MAX := by
    simp [char_array]
  refine ⟨?_, slashes_no_nul _, ?_, ?_, ?_, ?_, ?_, ?_⟩
  · rw [List.length_replicate]; decide
  · rw [stored_eq, cstr_of_not_mem _ (slashes_no_nul _), List.length_replicate]; rfl
  · rw [List.drop_left' htake, resolved]; rfl
  · rw [resolve_image, cstr_of_not_mem _ (slashes_no_nul _)]
    have hrep : List.replicate 4090 47 = List.replicate 4087 47 ++ [47, 47, 47] := by
      rw [show (4090 : Nat) = 4087 + 3 from rfl, List.replicate_add]; rfl
    have hsplit : ∀ (y : Bytes), loopback_path ++ List.replicate 4090 47 ++ 0 :: y
        = (loopback_path ++ List.replicate 4087 47) ++ ([47, 47, 47] ++ 0 :: y) := by
      intro y
      rw [hrep]
      simp only [List.append_assoc]
    have hfront : (loopback_path ++ List.replicate 4087 47).length = PATH_MAX := by
      rw [List.length_append, List.length_replicate]; rfl
    rw [hsplit, List.drop_left' hfront, cstr_append_zero _ _ (by decide)]
  · simp only [loopback_rename, hfit, hov]
  · simp only [loopback_link, hfit, hov]
  · simp only [loopback_symlink, hfit, hov]

/-! ## Directory listing -/

theorem readdir_loop_drain {σ β : Type} (filler : fuse_fill_dir_t β) (pre : List (Option DIR))
    (fault : Option Errno) (es : List Bytes) :
    ∀ (fuel : Nat) (buffer : β) (w : World σ),
      w.dirs = pre ++ [some ⟨es, fault⟩] → es.length < fuel →
      readdir_loop filler (pre.length + 1) fuel buffer w
        = .done (es.foldl (fun b e => (filler b e none 0).2) buffer,
            { w with
              errno := errno_at_end fault w.errno,
              dirs := pre ++ [some ⟨[], fault⟩],
              calls := w.calls ++ List.replicate (es.length + 1) (.readdir (pre.length + 1)) }) := by
  induction es with
  | nil =>
    intro fuel buffer w hw hfuel
    obtain ⟨n, rfl⟩ : ∃ n, fuel = n + 1 := ⟨fuel - 1, by simp at hfuel; omega⟩
    cases fault with
    | none => simp [readdir_loop, libc.readdir, hw, errno_at_end]
    | some e => simp [readdir_loop, libc.readdir, hw, errno_at_end]
  | cons e rest ih =>
    intro fuel buffer w hw hfuel
    obtain ⟨n, rfl⟩ : ∃ n, fuel = n + 1 := ⟨fuel - 1, by simp at hfuel; omega⟩
    have hn : rest.length < n := by simp at hfuel; omega
    simp only [readdir_loop, libc.readdir, hw, List.getElem?_concat_length]
    rw [ih n _ _ (by simp) hn]
    simp [List.replicate_succ, hw]

/-- C6: when the backing directory of `path` (a C string) opens and its
stream yields the names `es`, `loopback_readdir` (given loop budget for them)
returns 0 after feeding the sink each name of `es` once, in order, unchanged,
with a null `stat` and offset 0, whatever the `offset` argument and whatever
the sink answers: the sink buffer ends as the fold of `filler` over `es`, a
recording sink ends with exactly the calls `(e, NULL, 0)` for `e` in `es`, the
host sees `opendir`, one `readdir` per name plus the final one, and `closedir`,
and the stream is released. -/
theorem readdir_feeds_every_entry {σ β : Type} (h : Host σ) (fuel : Nat) (path : Bytes)
    (buffer : β) (filler : fuse_fill_dir_t β) (offset : Int) (fi : fuse_file_info)
    (w : World σ) (es : List Bytes) (fault : Option Errno) (s : σ)
    (hp : 0 ∉ path)
    (hopen : h.opendir (loopback_path ++ path) w.host = (.ok ⟨es, fault⟩, s))
    (hfuel : es.length < fuel) :
    loopback_readdir h fuel path buffer filler offset fi w
        = .done (0, es.foldl (fun b e => (filler b e none 0).2) buffer,
            { host := s,
              errno := errno_at_end fault w.errno,
              dirs := w.dirs ++ [none],
              calls := w.calls ++ [.opendir (loopback_path ++ path)]
                ++ List.replicate (es.length + 1) (.readdir (w.dirs.length + 1))
                ++ [.closedir (w.dirs.length + 1)] })
      ∧ ∀ (status : List (Bytes × Option Stat × Int) → Bytes → Int)
          (log : List (Bytes × Option Stat × Int)),
          ∃ w1, loopback_readdir h fuel path log (recorder status) offset fi w
            = .done (0, log ++ es.map (fun e => (e, none, 0)), w1) := by
  have key : ∀ (γ : Type) (g : fuse_fill_dir_t γ) (b : γ),
      loopback_readdir h fuel path b g offset fi w
        = .done (0, es.foldl (fun b e => (g b e none 0).2) b,
            { host := s,
              errno := errno_at_end fault w.errno,
              dirs := w.dirs ++ [none],
              calls := w.calls ++ [.opendir (loopback_path ++ path)]
                ++ List.replicate (es.length + 1) (.readdir (w.dirs.length + 1))
                ++ [.closedir (w.dirs.length + 1)] }) := by
    intro γ g b
    have hlen : path.length ≤ 4086 := by
      by_contra hlong
      have hl : loopback_path.length = 9 := rfl
      have hlaw := (h.name_too_long (loopback_path ++ path) w.host (by
        rw [List.length_append, hl]
        simp only [PATH_MAX]
        omega)).2.2.2.2.2.2.2.2.2.2.2
      rw [hopen] at hlaw
      simp at hlaw
    simp only [loopback_readdir, resolve_in_array path hp hlen, libc.opendir, resolved,
      cstr_of_not_mem path hp, hopen]
    rw [readdir_loop_drain g w.dirs fault es fuel b _ rfl hfuel]
    simp [libc.closedir, libc.step]
  refine ⟨key β filler buffer, ?_⟩
  intro status log
  have hfold : ∀ (l : List Bytes) (log : List (Bytes × Option Stat × Int)),
      l.foldl (fun b e => (recorder status b e none 0).2) log
        = log ++ l.map (fun e => (e, none, 0)) := by
    intro l
    induction l with
    | nil => intro log; simp
    | cons e rest ih => intro log; rw [List.foldl_cons, ih]; simp [recorder]
  exact ⟨_, by rw [key, hfold]⟩

/-- Instance of C6 on the concrete store: `/d` holds `a`, `b` and `c`; a sink
that answers "full" (1) to every call still receives `.`, `..`, `a`, `b`, `c`. -/
theorem readdir_feeds_every_entry_witness :
    0 ∉ [47, 100]
      ∧ posix.opendir (loopback_path ++ [47, 100]) (boot fs1).host
          = (.ok ⟨[[46], [46, 46], [97], [98], [99]], none⟩, fs1)
      ∧ [[46], [46, 46], [97], [98], [99]].length < 6
      ∧ loopback_readdir posix 6 [47, 100] ([] : List Bytes)
            (fun b name _ _ => (1, b ++ [name])) 7 ⟨0⟩ (boot fs1)
          = .done (0, [[46], [46, 46], [97], [98], [99]],
              { host := fs1, errno := 0, dirs := [none],
                calls := [.opendir [47, 116, 109, 112, 47, 108, 111, 111, 112, 47, 100],
                          .readdir 1, .readdir 1, .readdir 1, .readdir 1, .readdir 1,
                          .readdir 1, .closedir 1] }) :=
  ⟨by decide, by decide, by decide,
    (readdir_feeds_every_entry posix 6 [47, 100] ([] : List Bytes)
      (fun b name _ _ => (1, b ++ [name])) 7 ⟨0⟩ (boot fs1)
      [[46], [46, 46], [97], [98], [99]] none fs1 (by decide) (by decide) (by decide)).1⟩

/-! ## File data through a handle -/

theorem alloc_get (l : List (Option OpenFile)) (f : OpenFile) :
    (FS.alloc l f).2[(FS.alloc l f).1]? = some (some f) := by
  induction l with
  | nil => simp [FS.alloc]
  | cons a t ih => cases a <;> simp [FS.alloc, ih]

theorem description_install (s : FS) (f : OpenFile) (fd : Fd) (s1 : FS)
    (h : FS.install s f = (.ok fd, s1)) :
    FS.description s1 (fd.val : Int) = some f ∧ s1.names = s.names ∧ s1.inodes = s.inodes := by
  unfold FS.install at h
  split at h
  · simp only [Prod.mk.injEq, Res.ok.injEq] at h
    obtain ⟨rfl, rfl⟩ := h
    simp [FS.description, alloc_get]
  · simp at h

theorem description_set (s : FS) (fd : Int) (f g : OpenFile)
    (h : FS.description s fd = some f) :
    FS.description { s with fds := s.fds.set fd.toNat (some g) } fd = some g := by
  unfold FS.description at h ⊢
  split at h
  · simp at h
  · rename_i hfd
    have hlt : fd.toNat < s.fds.length := by
      by_contra hge
      rw [List.getElem?_eq_none (by omega)] at h
      simp at h
    simp [hfd, List.getElem?_set_self, hlt]

theorem lseek_keeps (s : FS) (fd : Int) (o : Int) (f : OpenFile)
    (hf : FS.description s fd = some f) :
    ∃ p, FS.description (FS.lseek fd o SEEK_SET s).2 fd = some { f with pos := p }
      ∧ (FS.lseek fd o SEEK_SET s).2.names = s.names
      ∧ (FS.lseek fd o SEEK_SET s).2.inodes = s.inodes := by
  by_cases ho : o < 0
  · refine ⟨f.pos, ?_⟩
    simp [FS.lseek, hf, SEEK_SET, ho]
  · refine ⟨o.toNat, ?_⟩
    simp only [FS.lseek, hf, SEEK_SET]
    simp [ho]
    exact description_set s fd f _ hf

theorem splice_end (c d : Bytes) : FS.splice c c.length d = c ++ d := by
  unfold FS.splice
  split
  · simp [*]
  · simp

theorem write_append (s : FS) (fd : Int) (g : OpenFile) (c d : Bytes)
    (hg : FS.description s fd = some g) (hwr : g.wr = true) (hap : g.append = true)
    (hi : s.inodes[g.ino]? = some (.file c)) :
    (FS.write fd d s).1 = .ok d.length
      ∧ (FS.write fd d s).2.names = s.names
      ∧ (FS.write fd d s).2.inodes = s.inodes.set g.ino (.file (c ++ d)) := by
  simp [FS.write, hg, hwr, hap, hi, splice_end]

theorem libc_lseek_host {σ : Type} (h : Host σ) (fd o : Int) (wh : Nat) (w : World σ) :
    (libc.lseek h fd o wh w).2.host = (h.lseek fd o wh w.host).2 := by
  unfold libc.lseek
  rcases h.lseek fd o wh w.host with ⟨r, s⟩
  cases r <;> rfl

theorem libc_write_ok {σ : Type} (h : Host σ) (fd : Int) (buffer : Bytes) (size n : Nat)
    (w : World σ) (hw : (h.write fd (buffer.take size) w.host).1 = .ok n) :
    (libc.write h fd buffer size w).1 = n
      ∧ (libc.write h fd buffer size w).2.host = (h.write fd (buffer.take size) w.host).2 := by
  unfold libc.write
  rcases hr : h.write fd (buffer.take size) w.host with ⟨r, s⟩
  rw [hr] at hw
  simp only at hw
  subst hw
  exact ⟨rfl, rfl⟩

theorem to_int_small (n : Nat) (h : n < 2 ^ 31) : to_int (n : Int) = n := by
  unfold to_int
  split <;> omega

theorem contents_file (s : FS) (p c : Bytes) (h : FS.contents s p = some c) :
    ∃ i, FS.lookup s.names (trim p) = some i ∧ s.inodes[i]? = some (.file c) := by
  unfold FS.contents FS.node at h
  cases hl : FS.lookup s.names (trim p) with
  | none => simp [hl] at h
  | some i =>
    refine ⟨i, rfl, ?_⟩
    simp only [hl] at h
    cases hn : s.inodes[i]? with
    | none => simp [hn] at h
    | some n =>
      cases n <;> simp [hn] at h
      rw [h]

theorem open_existing (s : FS) (p : Bytes) (i : Nat) (c : Bytes)
    (hl : FS.lookup s.names p = some i) (hi : s.inodes[i]? = some (.file c)) :
    FS.open_ p (O_RDWR ||| O_APPEND) s = FS.install s ⟨i, 0, true, true, true⟩ := by
  have hflags : O_RDWR ||| O_APPEND = 1026 := by decide
  rw [hflags]
  simp [FS.open_, hl, hi, O_APPEND]

theorem named_short {α : Type} (p : Bytes) (k : FS → Res α × FS) (s : FS)
    (h : p.length < PATH_MAX) : named p k s = k s := by
  simp [named, Nat.not_le.mpr h]

theorem backing_short (path : Bytes) (hlen : path.length ≤ 4086) :
    (loopback_path ++ path).length < PATH_MAX := by
  have hl : loopback_path.length = 9 := rfl
  rw [List.length_append, hl]
  simp only [PATH_MAX]
  omega

theorem open_write_appends (path c d : Bytes) (o : Int) (fi fi1 : fuse_file_info)
    (w w1 : World FS) (hp : 0 ∉ path)
    (hc : FS.contents w.host (loopback_path ++ path) = some c)
    (hopen : loopback_open posix path fi w = .done (0, fi1, w1)) :
    (d.length < 2 ^ 31 → (loopback_write posix path d d.length o fi1 w1).1 = d.length)
      ∧ FS.contents (loopback_write posix path d d.length o fi1 w1).2.host
          (loopback_path ++ path) = some (c ++ d) := by
  obtain ⟨i, hl, hi⟩ := contents_file _ _ _ hc
  have hlen := (done_fits posix path 0 fi w hp).2 _ hopen
  obtain ⟨r, hr, hneg, hfhr, hhostr⟩ := loopback_open_result posix path fi w hp hlen
  rw [hopen] at hr
  simp only [Outcome.done.injEq] at hr
  subst hr
  obtain ⟨fd, hfd⟩ := hneg.1.mp rfl
  have hfh : fi1.fh = fd.val := hfhr fd hfd
  have hhost : w1.host
      = (posix.open_ (loopback_path ++ path) (O_RDWR ||| O_APPEND) w.host).2 := hhostr
  have hposix : posix.open_ (loopback_path ++ path) (O_RDWR ||| O_APPEND) w.host
      = FS.open_ (trim (loopback_path ++ path)) (O_RDWR ||| O_APPEND) w.host :=
    named_short _ _ _ (backing_short path hlen)
  have hinst : FS.install w.host ⟨i, 0, true, true, true⟩ = (.ok fd, w1.host) := by
    rw [hhost, ← open_existing w.host _ i c hl hi, ← hposix]
    exact Prod.ext hfd rfl
  obtain ⟨hdesc, hnames, hinodes⟩ := description_install _ _ _ _ hinst
  have hfdint : to_int (fi1.fh : Int) = fd.val := by rw [hfh, to_int_fd]
  obtain ⟨p, hdesc2, hnames2, hinodes2⟩ := lseek_keeps w1.host fd.val o _ hdesc
  have hw := write_append (FS.lseek fd.val o SEEK_SET w1.host).2 fd.val _ c d hdesc2 rfl rfl
    (by rw [hinodes2, hinodes]; exact hi)
  have hlw := libc_write_ok posix (fd.val : Int) d d.length d.length
    (libc.lseek posix fd.val o SEEK_SET w1).2
    (by rw [libc_lseek_host, List.take_length]; exact hw.1)
  simp only [loopback_write, hfdint]
  refine ⟨fun hd => by rw [hlw.1, to_int_small _ hd], ?_⟩
  rw [hlw.2, libc_lseek_host, List.take_length]
  have hilt : i < w.host.inodes.length := by
    by_contra hge
    rw [List.getElem?_eq_none (by omega)] at hi
    simp at hi
  change FS.contents (FS.write fd.val d (FS.lseek fd.val o SEEK_SET w1.host).2).2 _ = _
  simp only [FS.contents, FS.node, hw.2.1, hw.2.2, hnames2, hinodes2, hnames, hinodes, hl]
  simp [hilt]

/-- C10: on a handle produced by `loopback_open` (`O_RDWR | O_APPEND`) the
offset given to `loopback_write` does not place the data.  Whenever the backing
file of `path` holds `c` and `loopback_open` returns 0 with handle `fi1`,
writing all of `d` at any offset `o` through the handle leaves the file as
`c ++ d` (and returns `len(d)` when that fits an `int`); and there is a file,
data and an offset inside the file for which the following `loopback_read` at
that offset returns `len(d)` bytes that are not `d`. -/
theorem open_handle_write_appends (path c d : Bytes) (o : Int) (fi fi1 : fuse_file_info)
    (w w1 : World FS) (hp : 0 ∉ path)
    (hc : FS.contents w.host (loopback_path ++ path) = some c)
    (hopen : loopback_open posix path fi w = .done (0, fi1, w1)) :
    (d.length < 2 ^ 31 → (loopback_write posix path d d.length o fi1 w1).1 = d.length)
      ∧ FS.contents (loopback_write posix path d d.length o fi1 w1).2.host
          (loopback_path ++ path) = some (c ++ d)
      ∧ ∃ (p0 c0 d0 : Bytes) (o0 : Nat) (w0 : World FS) (fi0 : fuse_file_info)
          (w2 : World FS),
          FS.contents w0.host (loopback_path ++ p0) = some c0
            ∧ loopback_open posix p0 ⟨0⟩ w0 = .done (0, fi0, w2)
            ∧ o0 < c0.length
            ∧ (loopback_write posix p0 d0 d0.length o0 fi0 w2).1 = d0.length
            ∧ (loopback_read posix p0 (char_array d0.length) d0.length o0 fi0
                (loopback_write posix p0 d0 d0.length o0 fi0 w2).2).1 = d0.length
            ∧ (loopback_read posix p0 (char_array d0.length) d0.length o0 fi0
                (loopback_write posix p0 d0 d0.length o0 fi0 w2).2).2.1 ≠ d0 := by
  have h := open_write_appends path c d o fi fi1 w w1 hp hc hopen
  refine ⟨h.1, h.2, [47, 97, 46, 116, 120, 116], [104, 101, 108, 108, 111], [33, 33], 0,
    boot fs1, ⟨0⟩,
    (libc.open_ posix (loopback_path ++ [47, 97, 46, 116, 120, 116]) (O_RDWR ||| O_APPEND)
      (boot fs1)).2, ?_⟩
  decide

/-- Instance of C10 on the concrete store: `/a.txt` holds `hello`; `open`
returns 0 with handle 0, and writing `!!` at offset 0 through it leaves
`hello!!`. -/
theorem open_handle_write_appends_witness :
    0 ∉ [47, 97, 46, 116, 120, 116]
      ∧ FS.contents (boot fs1).host (loopback_path ++ [47, 97, 46, 116, 120, 116])
          = some [104, 101, 108, 108, 111]
      ∧ loopback_open posix [47, 97, 46, 116, 120, 116] ⟨0⟩ (boot fs1)
          = .done (0, ⟨0⟩,
              (libc.open_ posix (loopback_path ++ [47, 97, 46, 116, 120, 116])
                (O_RDWR ||| O_APPEND) (boot fs1)).2)
      ∧ FS.contents (loopback_write posix [47, 97, 46, 116, 120, 116] [33, 33]
            [33, 33].length 0 ⟨0⟩
            (libc.open_ posix (loopback_path ++ [47, 97, 46, 116, 120, 116])
              (O_RDWR ||| O_APPEND) (boot fs1)).2).2.host
          (loopback_path ++ [47, 97, 46, 116, 120, 116])
          = some ([104, 101, 108, 108, 111] ++ [33, 33]) :=
  ⟨by decide, by decide, by decide,
    (open_handle_write_appends [47, 97, 46, 116, 120, 116] [104, 101, 108, 108, 111] [33, 33] 0
      ⟨0⟩ ⟨0⟩ (boot fs1) _ (by decide) (by decide) (by decide)).2.1⟩

/-! ## Where the driver departs from its stated contract -/

/-- C2, evaluated: in the store `fs0`, `create("/a.txt", 0644)` returns 0 with
handle 0 and `write(H, "hello", 0)` returns 5 and stores `hello`, but the
following `read(H, 5, 0)` returns `-1` with `errno = EBADF` and leaves the
buffer untouched: the descriptor made by `creat` is open for writing only. -/
theorem create_write_read_not_round_trip :
    ∃ w1 w2 w3 : World FS,
      loopback_create posix [47, 97, 46, 116, 120, 116] 420 ⟨0⟩ (boot fs0) = .done (0, ⟨0⟩, w1)
        ∧ loopback_write posix [47, 97, 46, 116, 120, 116] [104, 101, 108, 108, 111] 5 0 ⟨0⟩ w1
            = (5, w2)
        ∧ FS.contents w2.host (loopback_path ++ [47, 97, 46, 116, 120, 116])
            = some [104, 101, 108, 108, 111]
        ∧ loopback_read posix [47, 97, 46, 116, 120, 116] (char_array 5) 5 0 ⟨0⟩ w2
            = (-1, char_array 5, w3)
        ∧ w3.errno = EBADF.code :=
  ⟨(libc.creat posix (loopback_path ++ [47, 97, 46, 116, 120, 116]) 420 (boot fs0)).2,
    (loopback_write posix [47, 97, 46, 116, 120, 116] [104, 101, 108, 108, 111] 5 0 ⟨0⟩
      (libc.creat posix (loopback_path ++ [47, 97, 46, 116, 120, 116]) 420 (boot fs0)).2).2,
    (loopback_read posix [47, 97, 46, 116, 120, 116] (char_array 5) 5 0 ⟨0⟩
      (loopback_write posix [47, 97, 46, 116, 120, 116] [104, 101, 108, 108, 111] 5 0 ⟨0⟩
        (libc.creat posix (loopback_path ++ [47, 97, 46, 116, 120, 116]) 420
          (boot fs0)).2).2).2.2,
    by decide⟩

/-- C4, evaluated: in the store `fs1`, through the handle 0 obtained by
`open("/a.txt")`, `lseek` to offset `-1` fails (`-1`, `EINVAL`), yet
`loopback_read` at offset `-1` goes on to read and returns 5 with the buffer
filled, and `loopback_write` at offset `-1` goes on to write and returns 2. -/
theorem lseek_failure_not_reported :
    ∃ w1 : World FS,
      loopback_open posix [47, 97, 46, 116, 120, 116] ⟨0⟩ (boot fs1) = .done (0, ⟨0⟩, w1)
        ∧ (libc.lseek posix 0 (-1) SEEK_SET w1).1 = -1
        ∧ (libc.lseek posix 0 (-1) SEEK_SET w1).2.errno = EINVAL.code
        ∧ (loopback_read posix [47, 97, 46, 116, 120, 116] (char_array 5) 5 (-1) ⟨0⟩ w1).1 = 5
        ∧ (loopback_read posix [47, 97, 46, 116, 120, 116] (char_array 5) 5 (-1) ⟨0⟩ w1).2.1
            = [104, 101, 108, 108, 111]
        ∧ (loopback_write posix [47, 97, 46, 116, 120, 116] [33, 33] 2 (-1) ⟨0⟩ w1).1 = 2 :=
  ⟨(libc.open_ posix (loopback_path ++ [47, 97, 46, 116, 120, 116]) (O_RDWR ||| O_APPEND)
      (boot fs1)).2,
    by decide⟩

/-- C5, evaluated: in the store `fs0` the backing directory of `/x` does not
exist; `opendir` returns `NULL` with `errno = ENOENT`, and `loopback_readdir`
hands that `NULL` to `readdir`, which is undefined behaviour: no negative code
is returned, for any loop budget. -/
theorem readdir_failure_not_reported (fuel : Nat) :
    (libc.opendir posix (resolve_loopback_path (char_array PATH_MAX) [47, 120]) (boot fs0)).1 = 0
      ∧ (libc.opendir posix (resolve_loopback_path (char_array PATH_MAX) [47, 120])
          (boot fs0)).2.errno = ENOENT.code
      ∧ loopback_readdir posix (fuel + 1) [47, 120] ([] : List Bytes)
          (fun b name _ _ => (0, b ++ [name])) 0 ⟨0⟩ (boot fs0) = .undefined := by
  refine ⟨by decide, by decide, ?_⟩
  rfl

/-- Whatever the host does, a `loopback_readdir` that returns returns 0. -/
theorem readdir_returns_zero {σ β : Type} (h : Host σ) (fuel : Nat) (path : Bytes) (buffer : β)
    (filler : fuse_fill_dir_t β) (offset : Int) (fi : fuse_file_info) (w : World σ)
    (r : Int × β × World σ)
    (hr : loopback_readdir h fuel path buffer filler offset fi w = .done r) : r.1 = 0 := by
  unfold loopback_readdir at hr
  split at hr
  · simp at hr
  · simp only at hr
    split at hr
    · simp at hr
    · simp at hr
    · split at hr
      · simp at hr
      · simp only [Outcome.done.injEq] at hr
        rw [← hr]

theorem creat_description (p : Bytes) (mode : Nat) (s s1 : FS) (fd : Fd)
    (h : FS.creat p mode s = (.ok fd, s1)) :
    ∃ i, FS.description s1 (fd.val : Int) = some ⟨i, 0, false, true, false⟩ := by
  unfold FS.creat at h
  split at h
  · split at h
    · exact ⟨_, (description_install _ _ _ _ h).1⟩
    · simp at h
    · simp at h
  · split at h
    · exact ⟨_, (description_install _ _ _ _ h).1⟩
    · simp at h

theorem write_keeps (s : FS) (fd : Int) (d : Bytes) (g : OpenFile)
    (hg : FS.description s fd = some g) :
    ∃ p, FS.description (FS.write fd d s).2 fd = some { g with pos := p } := by
  simp only [FS.write, hg]
  split
  · exact ⟨g.pos, hg⟩
  · split
    · exact ⟨_, description_set _ fd g _ hg⟩
    · exact ⟨g.pos, hg⟩

theorem read_write_only (s : FS) (fd : Int) (n : Nat) (g : OpenFile)
    (hg : FS.description s fd = some g) (hrd : g.rd = false) :
    FS.read fd n s = (.err EBADF, s) := by
  simp [FS.read, hg, hrd]

theorem libc_write_host {σ : Type} (h : Host σ) (fd : Int) (buffer : Bytes) (size : Nat)
    (w : World σ) :
    (libc.write h fd buffer size w).2.host = (h.write fd (buffer.take size) w.host).2 := by
  unfold libc.write
  rcases h.write fd (buffer.take size) w.host with ⟨r, s⟩
  cases r <;> rfl

theorem libc_read_err {σ : Type} (h : Host σ) (fd : Int) (buffer : Bytes) (size : Nat)
    (w : World σ) (e : Errno) (he : (h.read fd size w.host).1 = .err e) :
    (libc.read h fd buffer size w).1 = -1 ∧ (libc.read h fd buffer size w).2.1 = buffer
      ∧ (libc.read h fd buffer size w).2.2.errno = e.code := by
  unfold libc.read
  rcases hr : h.read fd size w.host with ⟨r, s⟩
  rw [hr] at he
  simp only at he
  subst he
  exact ⟨rfl, rfl, rfl⟩

/-- In every state of the store and for every path, mode, data and offsets: when
`loopback_create` returns 0, a `loopback_read` through its handle after a
`loopback_write` returns `-1` with `errno = EBADF` and stores nothing. -/
theorem create_handle_write_only (path d buffer : Bytes) (mode size n : Nat) (o o1 : Int)
    (fi fi1 : fuse_file_info) (w w1 : World FS) (hp : 0 ∉ path)
    (hcreate : loopback_create posix path mode fi w = .done (0, fi1, w1)) :
    (loopback_read posix path buffer n o1 fi1
        (loopback_write posix path d size o fi1 w1).2).1 = -1
      ∧ (loopback_read posix path buffer n o1 fi1
        (loopback_write posix path d size o fi1 w1).2).2.1 = buffer
      ∧ (loopback_read posix path buffer n o1 fi1
        (loopback_write posix path d size o fi1 w1).2).2.2.errno = EBADF.code := by
  have hlen := (done_fits posix path mode fi w hp).1 _ hcreate
  obtain ⟨r, hr, hneg, hfhr, hhostr⟩ := loopback_create_result posix path mode fi w hp hlen
  rw [hcreate] at hr
  simp only [Outcome.done.injEq] at hr
  subst hr
  obtain ⟨fd, hfd⟩ := hneg.1.mp rfl
  have hfh : fi1.fh = fd.val := hfhr fd hfd
  have hhost : w1.host = (posix.creat (loopback_path ++ path) mode w.host).2 := hhostr
  have hposix : posix.creat (loopback_path ++ path) mode w.host
      = FS.creat (trim (loopback_path ++ path)) mode w.host :=
    named_short _ _ _ (backing_short path hlen)
  obtain ⟨i, hdesc⟩ := creat_description (trim (loopback_path ++ path)) mode w.host
    w1.host fd (by rw [hhost, ← hposix]; exact Prod.ext hfd rfl)
  have hfdint : to_int (fi1.fh : Int) = fd.val := by rw [hfh, to_int_fd]
  obtain ⟨p1, h1⟩ := lseek_keeps w1.host fd.val o _ hdesc
  obtain ⟨p2, h2⟩ := write_keeps _ fd.val (d.take size) _ h1.1
  obtain ⟨p3, h3⟩ := lseek_keeps _ fd.val o1 _ h2
  have hread := read_write_only _ fd.val n _ h3.1 rfl
  have hlr := libc_read_err posix (fd.val : Int) buffer n
    (libc.lseek posix fd.val o1 SEEK_SET
      (libc.write posix fd.val d size (libc.lseek posix fd.val o SEEK_SET w1).2).2).2 EBADF
    (by
      rw [libc_lseek_host, libc_write_host, libc_lseek_host]
      change (FS.read _ _ (FS.lseek _ _ _ (FS.write _ _ (FS.lseek _ _ _ _).2).2).2).1 = _
      rw [hread])
  simp only [loopback_read, loopback_write, hfdint]
  exact ⟨by rw [hlr.1]; decide, hlr.2.1, hlr.2.2⟩

/-- On every host: when `lseek` fails and the `read` that follows delivers
`data` (no longer than `size`, and short enough for an `int`), `loopback_read`
returns the byte count of `data`, not a negative value. -/
theorem read_after_failed_lseek {σ : Type} (h : Host σ) (path buffer data : Bytes) (size : Nat)
    (offset : Int) (fi : fuse_file_info) (w : World σ) (e : Errno) (s1 s2 : σ)
    (hseek : h.lseek (to_int fi.fh) offset SEEK_SET w.host = (.err e, s1))
    (hread : h.read (to_int fi.fh) size s1 = (.ok data, s2))
    (hsize : data.length ≤ size) (hint : data.length < 2 ^ 31) :
    (libc.lseek h (to_int fi.fh) offset SEEK_SET w).1 = -1
      ∧ (loopback_read h path buffer size offset fi w).1 = data.length := by
  simp only [loopback_read, libc.lseek, libc.read, hseek, libc.step, hread,
    List.take_of_length_le hsize]
  exact ⟨trivial, to_int_small _ hint⟩

end Loopback
